import Mathlib

/-!
Verification development for the stress-ng memthrash and opcode stressors
(`stress-memthrash.c`, `stress-opcode.c`).  The C code is shallowly embedded:
machine integers become `Nat` (with explicit `% 2 ^ w` where overflow matters),
memory buffers become functions `Nat → Nat` from byte offsets to byte values,
nondeterministic inputs (random draws, mmap outcomes, the external stop flag)
become explicit oracle sequences, and unbounded C loops become fuel-indexed
recursions returning `Option`.
-/

/-- Exit statuses used by the stressors (EXIT_SUCCESS, EXIT_FAILURE,
EXIT_NO_RESOURCE in the stress-ng sources). -/
inductive ExitStatus where
  | success
  | failure
  | noResource
  deriving DecidableEq

/-! ## Memthrash method registry (stress-memthrash.c lines 595-626)

Each entry of `memthrash_methods` pairs the method name with a tag standing
for the C function pointer; all function pointers in the table are distinct,
so a tag inductive with distinct constructors is a faithful image.  The table
is modelled with every conditionally-compiled entry present (HAVE_INT128_T,
HAVE_ASM_X86_CLFLUSH and MEM_LOCK all defined), giving the full 23 entries. -/

/-- Tags for the distinct C function pointers stored in `memthrash_methods`. -/
inductive MemthrashFunc where
  | all
  | random_chunk1
  | random_chunk8
  | random_chunk64
  | random_chunk256
  | random_chunkpage
  | copy128
  | flip_mem
  | flush
  | lock
  | matrix
  | memmove
  | memset
  | memset64
  | mfence
  | prefetch
  | random
  | spinread
  | spinwrite
  | swap
  | swap64
  | swapfwdrev
  | tlb
  deriving DecidableEq

/-- The memthrash method registry: `{ "all", stress_memthrash_all }` first,
then the worker methods in table order (stress-memthrash.c lines 595-626). -/
def memthrash_methods : List (String × MemthrashFunc) :=
  [("all", MemthrashFunc.all),
   ("chunk1", MemthrashFunc.random_chunk1),
   ("chunk8", MemthrashFunc.random_chunk8),
   ("chunk64", MemthrashFunc.random_chunk64),
   ("chunk256", MemthrashFunc.random_chunk256),
   ("chunkpage", MemthrashFunc.random_chunkpage),
   ("copy128", MemthrashFunc.copy128),
   ("flip", MemthrashFunc.flip_mem),
   ("flush", MemthrashFunc.flush),
   ("lock", MemthrashFunc.lock),
   ("matrix", MemthrashFunc.matrix),
   ("memmove", MemthrashFunc.memmove),
   ("memset", MemthrashFunc.memset),
   ("memset64", MemthrashFunc.memset64),
   ("mfence", MemthrashFunc.mfence),
   ("prefetch", MemthrashFunc.prefetch),
   ("random", MemthrashFunc.random),
   ("spinread", MemthrashFunc.spinread),
   ("spinwrite", MemthrashFunc.spinwrite),
   ("swap", MemthrashFunc.swap),
   ("swap64", MemthrashFunc.swap64),
   ("swapfwdrev", MemthrashFunc.swapfwdrev),
   ("tlb", MemthrashFunc.tlb)]

/-- Default entry used for the (unreachable) out-of-range table read. -/
def memthrash_default_entry : String × MemthrashFunc := ("all", MemthrashFunc.all)

/-! ## stress_memthrash_all (lines 628-640)

`static size_t i = 1` persists across invocations.  One invocation runs
`memthrash_methods[i].func` repeatedly for a 10 ms wall-clock slice, then
advances `i`, wrapping back to 1 (never 0) when it reaches the table size.
One invocation is modelled as: record the invoked slot, compute the next
rotation index. -/

/-- The rotation-index update of `stress_memthrash_all`: `i++` followed by
`if (i >= SIZEOF_ARRAY(memthrash_methods)) i = 1`. -/
def stress_memthrash_all_next (i : Nat) : Nat :=
  if i + 1 ≥ memthrash_methods.length then 1 else i + 1

/-- Run `n` consecutive invocations of `stress_memthrash_all` starting from
rotation state `i`; returns the list of invoked slots and the final rotation
state. -/
def stress_memthrash_all_run : Nat → Nat → List Nat × Nat
  | 0, i => ([], i)
  | n + 1, i =>
    let r := stress_memthrash_all_run n (stress_memthrash_all_next i)
    (i :: r.1, r.2)

/-! ## stress_memthrash_random (lines 642-656)

Loops drawing `i = stress_mwc8() % SIZEOF_ARRAY(memthrash_methods)` until the
slot's function is neither `stress_memthrash_random` nor
`stress_memthrash_all`, then runs it.  The random byte stream becomes an
explicit list of draws; an exhausted list models a run still inside the
loop. -/

/-- One draw of `stress_memthrash_random`: a random byte reduced modulo the
table size. -/
def stress_memthrash_random_draw (b : Nat) : Nat :=
  b % memthrash_methods.length

/-- The re-draw loop of `stress_memthrash_random` over an explicit list of
random bytes: returns the slot finally invoked, or `none` if the draws are
exhausted while still re-drawing. -/
def stress_memthrash_random_pick : List Nat → Option Nat
  | [] => none
  | b :: rest =>
    let i := stress_memthrash_random_draw b
    let func := (memthrash_methods.getD i memthrash_default_entry).2
    if func ≠ MemthrashFunc.random ∧ func ≠ MemthrashFunc.all then some i
    else stress_memthrash_random_pick rest

/-! ## Method-name lookup (stress_set_memthrash_method lines 662-681,
stress_set_opcode_method in stress-opcode.c lines 315-333)

Both functions scan their table in order comparing with `strcmp` (exact,
case-sensitive match); on a hit they store the setting and return 0, on a
miss they print every valid name to stderr and return -1 without storing
anything. -/

/-- Tags for the opcode method function pointers (stress-opcode.c
lines 303-309). -/
inductive OpcodeFunc where
  | random
  | text
  | inc
  | mixed
  deriving DecidableEq

/-- The opcode method registry, in table order. -/
def stress_opcode_methods : List (String × OpcodeFunc) :=
  [("random", OpcodeFunc.random),
   ("text", OpcodeFunc.text),
   ("inc", OpcodeFunc.inc),
   ("mixed", OpcodeFunc.mixed)]

/-- The shared scan loop of both setters: first entry whose name `strcmp`s
equal to `name`. -/
def stress_method_lookup {α : Type} (name : String) :
    List (String × α) → Option (String × α)
  | [] => none
  | m :: rest => if m.1 == name then some m else stress_method_lookup name rest

/-- Result of a method setter: the C return value, the stored setting (the
matched method's name) if any, and the list of names printed to stderr. -/
def stress_set_memthrash_method (name : String) :
    Int × Option String × List String :=
  match stress_method_lookup name memthrash_methods with
  | some m => (0, some m.1, [])
  | none => (-1, none, memthrash_methods.map (fun m => m.1))

/-- `stress_set_opcode_method`, same scan over the opcode table. -/
def stress_set_opcode_method (name : String) :
    Int × Option String × List String :=
  match stress_method_lookup name stress_opcode_methods with
  | some m => (0, some m.1, [])
  | none => (-1, none, stress_opcode_methods.map (fun m => m.1))

/-- Spec-side comparison, written from the claim's words ("case-insensitive
comparison", ASCII): lower-case both strings and compare.  Used only to state
the refinement between the claimed and the implemented lookup. -/
def asciiLowerChar (c : Char) : Char :=
  if 'A' ≤ c ∧ c ≤ 'Z' then Char.ofNat (c.toNat + 32) else c

/-- Spec-side case-insensitive string equality (from the claim's words). -/
def ciEq (a b : String) : Bool :=
  a.data.map asciiLowerChar == b.data.map asciiLowerChar

/-! ## stress_memthrash_max (lines 736-747) and stress_memthash_optimal
(lines 749-761)

Both operate on `uint32_t`; no intermediate result can overflow 32 bits
(`total_cpus / instances ≤ total_cpus`, and the `max + 1` branch is only
taken when `instances ≥ 2`, hence `max ≤ total_cpus / 2`), so plain `Nat`
is a faithful embedding. -/

/-- Worker (pthread) count per stressor instance. -/
def stress_memthrash_max (instances total_cpus : Nat) : Nat :=
  if instances ≥ total_cpus ∨ instances = 0 then 1
  else
    let mx := total_cpus / instances
    if total_cpus % instances = 0 then mx else mx + 1

/-- The descending scan of `stress_memthash_optimal`: `while (n > 1)` looking
for `total_cpus % n == 0`. -/
def stress_memthash_optimal_loop (total_cpus : Nat) : Nat → Nat
  | 0 => 1
  | 1 => 1
  | n + 2 =>
    if total_cpus % (n + 2) = 0 then n + 2
    else stress_memthash_optimal_loop total_cpus (n + 1)

/-- Advisory optimal instance count (the sic spelling `memthash` is the
source's). -/
def stress_memthash_optimal (instances total_cpus : Nat) : Nat :=
  stress_memthash_optimal_loop total_cpus instances

/-! ## stress_memthrash_find_primes (lines 683-695) -/

def MATRIX_SIZE_MIN_SHIFT : Nat := 10

def MATRIX_SIZE_MAX_SHIFT : Nat := 14

def MEM_SIZE_PRIMES : Nat := 1 + MATRIX_SIZE_MAX_SHIFT - MATRIX_SIZE_MIN_SHIFT

def STRESS_CACHE_LINE_SHIFT : Nat := 6

def STRESS_CACHE_LINE_SIZE : Nat := 2 ^ STRESS_CACHE_LINE_SHIFT

/-- Modelled from the spec: `stress_get_prime64` lives in core-helper.c,
which is not part of the two source files; spec section 4.2 calls it
`nextPrime` ("compute stride = nextPrime(s/cacheLineSize + 137) *
cacheLineSize", "prime search"), so it is modelled as the least prime that
is at least `n`. -/
def stress_get_prime64 (n : Nat) : Nat :=
  Nat.find (Nat.exists_infinite_primes n)

/-- The prime-stride table: entry `i` holds
`mem_size = 1 << (2 * (i + MATRIX_SIZE_MIN_SHIFT))` and
`prime_stride = stress_get_prime64(mem_size / STRESS_CACHE_LINE_SIZE + 137) *
STRESS_CACHE_LINE_SIZE`. -/
def stress_memthrash_find_primes : List (Nat × Nat) :=
  (List.range MEM_SIZE_PRIMES).map fun i =>
    let mem_size := 2 ^ (2 * (i + MATRIX_SIZE_MIN_SHIFT))
    let cache_lines := mem_size / STRESS_CACHE_LINE_SIZE + 137
    (mem_size, stress_get_prime64 cache_lines * STRESS_CACHE_LINE_SIZE)

/-! ## The mmap-retry loop of stress_memthrash_child (lines 802-818)

The loop body: `mem = mmap(...)`; on `MAP_FAILED` it clears `MAP_POPULATE`
from the flags, then checks `keep_stressing_flag()` — if already stopped it
frees the bookkeeping and returns `EXIT_NO_RESOURCE`; otherwise it sleeps
100 ms (`shim_usleep(100000)`), re-checks `keep_stressing_flag()` — if now
stopped it jumps to `reap_mem` (unmap + free) and returns `EXIT_SUCCESS` —
and retries the mmap.  `mmapOk n` is the outcome of the `n`-th mmap call and
`keep k` the `k`-th read of the stop flag; `fuel` bounds the unbounded C
loop, `none` meaning "still looping after `fuel` iterations". -/

/-- How the mmap-retry loop of `stress_memthrash_child` ends. -/
inductive MemthrashMmapOutcome where
  | mapped (populate : Bool)
  | noResource
  | reapExit
  deriving DecidableEq

/-- The retry loop; `populate` is whether `MAP_POPULATE` is still in
`flags`. -/
def stress_memthrash_mmap_retry (mmapOk : Nat → Bool) (keep : Nat → Bool) :
    Nat → Nat → Nat → Bool → Option MemthrashMmapOutcome
  | 0, _, _, _ => none
  | fuel + 1, attempt, reads, populate =>
    if mmapOk attempt then some (MemthrashMmapOutcome.mapped populate)
    else
      if ¬ keep reads then some MemthrashMmapOutcome.noResource
      else if ¬ keep (reads + 1) then some MemthrashMmapOutcome.reapExit
      else stress_memthrash_mmap_retry mmapOk keep fuel (attempt + 1) (reads + 2) false

/-- The exit status `stress_memthrash_child` produces for each way the retry
loop can end (a successful mapping leads to the thread phase, which returns
`EXIT_SUCCESS`; the `reap_mem` path also returns `EXIT_SUCCESS`). -/
def memthrash_mmap_exit : MemthrashMmapOutcome → ExitStatus
  | MemthrashMmapOutcome.mapped _ => ExitStatus.success
  | MemthrashMmapOutcome.noResource => ExitStatus.noResource
  | MemthrashMmapOutcome.reapExit => ExitStatus.success

/-! ## reverse64 (stress-opcode.c lines 145-154)

Three masked swap stages: nibbles within bytes, bit pairs within nibbles,
bits within pairs — i.e. bit reversal within each byte.  `uint64_t`
arithmetic: every stage keeps the value below `2 ^ 64` (masks are below
`2 ^ 64` and each left shift re-fills exactly the bits its mask cleared), so
`Nat` with the same literals is a faithful embedding. -/

/-- `reverse64` exactly as in the source. -/
def reverse64 (x : Nat) : Nat :=
  let x1 := ((x &&& 0xf0f0f0f0f0f0f0f0) >>> 4) ||| ((x &&& 0x0f0f0f0f0f0f0f0f) <<< 4)
  let x2 := ((x1 &&& 0xcccccccccccccccc) >>> 2) ||| ((x1 &&& 0x3333333333333333) <<< 2)
  let x3 := ((x2 &&& 0xaaaaaaaaaaaaaaaa) >>> 1) ||| ((x2 &&& 0x5555555555555555) <<< 1)
  x3

/-- First stage of `reverse64`: swap the nibbles of every byte. -/
def swapNibbles (x : Nat) : Nat :=
  ((x &&& 0xf0f0f0f0f0f0f0f0) >>> 4) ||| ((x &&& 0x0f0f0f0f0f0f0f0f) <<< 4)

/-- Second stage of `reverse64`: swap the bit pairs of every nibble. -/
def swapPairs (x : Nat) : Nat :=
  ((x &&& 0xcccccccccccccccc) >>> 2) ||| ((x &&& 0x3333333333333333) <<< 2)

/-- Third stage of `reverse64`: swap the bits of every pair. -/
def swapBits (x : Nat) : Nat :=
  ((x &&& 0xaaaaaaaaaaaaaaaa) >>> 1) ||| ((x &&& 0x5555555555555555) <<< 1)

/-- Bit-index map of `swapNibbles`. -/
def nibbleIdx (i : Nat) : Nat := if i % 8 < 4 then i + 4 else i - 4

/-- Bit-index map of `swapPairs`. -/
def pairIdx (i : Nat) : Nat := if i % 4 < 2 then i + 2 else i - 2

/-- Bit-index map of `swapBits`. -/
def bitIdx (i : Nat) : Nat := if i % 2 = 0 then i + 1 else i - 1

/-- Bit-index map of the whole of `reverse64`: reversal within each byte. -/
def byteRevIdx (i : Nat) : Nat := nibbleIdx (pairIdx (bitIdx i))

/-! ## The opcode sandbox buffer and the "inc" generator

`stress_opcode` (stress-opcode.c lines 429-444): the child maps
`page_size * PAGES` bytes, zero-fills them, sets `ops_begin = opcodes +
page_size` and `ops_end = opcodes + page_size * (PAGES - 1)`, makes page 0
and the page at `ops_end` inaccessible (the guard pages) and the first
interior page writable.  Buffers are functions from byte offset to byte
value. -/

def PAGES : Nat := 16

/-- Offset of `ops_begin`: the first byte after the low guard page. -/
def opcode_ops_begin (page_size : Nat) : Nat := page_size

/-- Offset of `ops_end`: the first byte of the high guard page. -/
def opcode_ops_end (page_size : Nat) : Nat := page_size * (PAGES - 1)

/-- The buffer just after `memset(opcodes, 0x00, page_size * PAGES)`. -/
def opcode_zeroed_buf : Nat → Nat := fun _ => 0

/-- Sequential byte store loop: `while (i--) *(ops++) = v;` starting at
offset `start` for `n` bytes. -/
def fillBytes : (Nat → Nat) → Nat → Nat → Nat → (Nat → Nat)
  | buf, _, 0, _ => buf
  | buf, start, n + 1, v =>
    fillBytes (fun j => if j = start then v else buf j) (start + 1) n v

/-- The `STRESS_OPCODE_SIZE == 8` arm of `stress_opcode_inc` (stress-opcode.c
lines 185-194): `tmp8 = *op & 0xff` is stored into `page_size` consecutive
bytes starting at `ops_begin`. -/
def stress_opcode_inc8 (page_size ops_begin op : Nat) (buf : Nat → Nat) :
    Nat → Nat :=
  fillBytes buf ops_begin page_size (op % 256)

/-- The counter updates performed by the child's execution loop
(stress-opcode.c line 490): each of the `k` slots it lives to start executes
`*op = (*op + 1) & STRESS_OPCODE_MASK` first.  For the 8-bit opcode size of
the claim the mask is `0xff` (the opcode size's value space, per the spec),
so the update is `(op + 1) % 256`.  `op` is in a `MAP_SHARED` page, so the
increments persist into the parent's next fork. -/
def opcode_child_op_steps : Nat → Nat → Nat
  | 0, op => op
  | k + 1, op => opcode_child_op_steps k ((op + 1) % 256)

/-! ## The opcode parent driver loop (stress-opcode.c lines 505-518)

After each fork the parent waits for the child: on a `waitpid` failure other
than `EINTR` it logs, and in every failure case sends SIGTERM then SIGKILL
and re-waits; in all cases it then runs `inc_counter(args)` and loops while
`keep_stressing(args)`.  The child's exit status is never examined, and the
final return code is set at `finish:` to `EXIT_SUCCESS` independent of every
status.  One list element per completed iteration: the `waitpid` result and
the child's raw exit status word. -/

/-- Result of one `shim_waitpid` call in the parent. -/
structure OpcodeWaitResult where
  waitFailed : Bool
  status : Nat

/-- Signals the parent sends for one wait result: SIGTERM (15) and
SIGKILL (9) only when `waitpid` itself failed. -/
def stress_opcode_reap_signals (w : OpcodeWaitResult) : List Nat :=
  if w.waitFailed then [15, 9] else []

/-- The parent driver loop over the per-iteration wait results; returns the
final bogo-op counter and the stressor's return code. -/
def stress_opcode_driver : List OpcodeWaitResult → Nat → Nat × ExitStatus
  | [], counter => (counter, ExitStatus.success)
  | _ :: rest, counter => stress_opcode_driver rest (counter + 1)

/-! ## Helper lemmas -/

theorem reverse64_eq_stages (x : Nat) :
    reverse64 x = swapBits (swapPairs (swapNibbles x)) := rfl

theorem maskF0_testBit (i : Nat) :
    Nat.testBit 0xf0f0f0f0f0f0f0f0 i = (decide (i < 64) && decide (4 ≤ i % 8)) := by
  rcases Nat.lt_or_ge i 64 with h | h
  · interval_cases i <;> decide
  · rw [Nat.testBit_lt_two_pow]
    · simp [Nat.not_lt.mpr h]
    · exact Nat.lt_of_lt_of_le (by norm_num) (Nat.pow_le_pow_right (by norm_num) h)

theorem mask0F_testBit (i : Nat) :
    Nat.testBit 0x0f0f0f0f0f0f0f0f i = (decide (i < 64) && decide (i % 8 < 4)) := by
  rcases Nat.lt_or_ge i 64 with h | h
  · interval_cases i <;> decide
  · rw [Nat.testBit_lt_two_pow]
    · simp [Nat.not_lt.mpr h]
    · exact Nat.lt_of_lt_of_le (by norm_num) (Nat.pow_le_pow_right (by norm_num) h)

theorem maskCC_testBit (i : Nat) :
    Nat.testBit 0xcccccccccccccccc i = (decide (i < 64) && decide (2 ≤ i % 4)) := by
  rcases Nat.lt_or_ge i 64 with h | h
  · interval_cases i <;> decide
  · rw [Nat.testBit_lt_two_pow]
    · simp [Nat.not_lt.mpr h]
    · exact Nat.lt_of_lt_of_le (by norm_num) (Nat.pow_le_pow_right (by norm_num) h)

theorem mask33_testBit (i : Nat) :
    Nat.testBit 0x3333333333333333 i = (decide (i < 64) && decide (i % 4 < 2)) := by
  rcases Nat.lt_or_ge i 64 with h | h
  · interval_cases i <;> decide
  · rw [Nat.testBit_lt_two_pow]
    · simp [Nat.not_lt.mpr h]
    · exact Nat.lt_of_lt_of_le (by norm_num) (Nat.pow_le_pow_right (by norm_num) h)

theorem maskAA_testBit (i : Nat) :
    Nat.testBit 0xaaaaaaaaaaaaaaaa i = (decide (i < 64) && decide (i % 2 = 1)) := by
  rcases Nat.lt_or_ge i 64 with h | h
  · interval_cases i <;> decide
  · rw [Nat.testBit_lt_two_pow]
    · simp [Nat.not_lt.mpr h]
    · exact Nat.lt_of_lt_of_le (by norm_num) (Nat.pow_le_pow_right (by norm_num) h)

theorem mask55_testBit (i : Nat) :
    Nat.testBit 0x5555555555555555 i = (decide (i < 64) && decide (i % 2 = 0)) := by
  rcases Nat.lt_or_ge i 64 with h | h
  · interval_cases i <;> decide
  · rw [Nat.testBit_lt_two_pow]
    · simp [Nat.not_lt.mpr h]
    · exact Nat.lt_of_lt_of_le (by norm_num) (Nat.pow_le_pow_right (by norm_num) h)

theorem swapNibbles_testBit (x i : Nat) (h : i < 64) :
    (swapNibbles x).testBit i = x.testBit (nibbleIdx i) := by
  unfold swapNibbles nibbleIdx
  simp only [Nat.testBit_lor, Nat.testBit_land, Nat.testBit_shiftLeft, Nat.testBit_shiftRight,
    maskF0_testBit, mask0F_testBit]
  by_cases hc : i % 8 < 4
  · have h1 : 4 + i < 64 := by omega
    have h2 : 4 ≤ (4 + i) % 8 := by omega
    by_cases hi4 : 4 ≤ i
    · have h3 : ¬ ((i - 4) % 8 < 4) := by omega
      simp [hc, h1, h2, h3, Nat.add_comm]
      intro _
      omega
    · simp [hc, h1, h2, hi4, Nat.add_comm]
      intro _
      omega
  · have h1 : ¬ (4 ≤ (4 + i) % 8) := by omega
    have h2 : 4 ≤ i := by omega
    have h3 : i - 4 < 64 := by omega
    have h4 : (i - 4) % 8 < 4 := by omega
    simp [hc, h1, h2, h3, h4]

theorem swapPairs_testBit (x i : Nat) (h : i < 64) :
    (swapPairs x).testBit i = x.testBit (pairIdx i) := by
  unfold swapPairs pairIdx
  simp only [Nat.testBit_lor, Nat.testBit_land, Nat.testBit_shiftLeft, Nat.testBit_shiftRight,
    maskCC_testBit, mask33_testBit]
  by_cases hc : i % 4 < 2
  · have h1 : 2 + i < 64 := by omega
    have h2 : 2 ≤ (2 + i) % 4 := by omega
    by_cases hi2 : 2 ≤ i
    · have h3 : ¬ ((i - 2) % 4 < 2) := by omega
      simp [hc, h1, h2, h3, Nat.add_comm]
      intro _
      omega
    · simp [hc, h1, h2, hi2, Nat.add_comm]
      intro _
      omega
  · have h1 : ¬ (2 ≤ (2 + i) % 4) := by omega
    have h2 : 2 ≤ i := by omega
    have h3 : i - 2 < 64 := by omega
    have h4 : (i - 2) % 4 < 2 := by omega
    simp [hc, h1, h2, h3, h4]

theorem swapBits_testBit (x i : Nat) (h : i < 64) :
    (swapBits x).testBit i = x.testBit (bitIdx i) := by
  unfold swapBits bitIdx
  simp only [Nat.testBit_lor, Nat.testBit_land, Nat.testBit_shiftLeft, Nat.testBit_shiftRight,
    maskAA_testBit, mask55_testBit]
  by_cases hc : i % 2 = 0
  · have h1 : 1 + i < 64 := by omega
    have h2 : (1 + i) % 2 = 1 := by omega
    by_cases hi1 : 1 ≤ i
    · have h3 : ¬ ((i - 1) % 2 = 0) := by omega
      simp [hc, h1, h2, h3, Nat.add_comm]
      intro _
      omega
    · simp [hc, h1, h2, hi1, Nat.add_comm]
      intro _
      omega
  · have h1 : ¬ ((1 + i) % 2 = 1) := by omega
    have h2 : 1 ≤ i := by omega
    have h3 : i - 1 < 64 := by omega
    have h4 : (i - 1) % 2 = 0 := by omega
    simp [hc, h1, h2, h3, h4]

theorem bitIdx_lt (i : Nat) (h : i < 64) : bitIdx i < 64 := by
  unfold bitIdx
  split <;> omega

theorem pairIdx_lt (i : Nat) (h : i < 64) : pairIdx i < 64 := by
  unfold pairIdx
  split <;> omega

theorem byteRevIdx_lt (i : Nat) (h : i < 64) : byteRevIdx i < 64 := by
  unfold byteRevIdx nibbleIdx
  have := pairIdx_lt (bitIdx i) (bitIdx_lt i h)
  split <;> omega

theorem reverse64_testBit (x i : Nat) (h : i < 64) :
    (reverse64 x).testBit i = x.testBit (byteRevIdx i) := by
  rw [reverse64_eq_stages, swapBits_testBit _ _ h,
    swapPairs_testBit _ _ (bitIdx_lt i h),
    swapNibbles_testBit _ _ (pairIdx_lt _ (bitIdx_lt i h))]
  rfl

theorem byteRevIdx_involutive : ∀ i, i < 64 → byteRevIdx (byteRevIdx i) = i := by decide

theorem reverse64_lt (x : Nat) : reverse64 x < 2 ^ 64 := by
  rw [reverse64_eq_stages]
  unfold swapBits
  apply Nat.or_lt_two_pow
  · have h1 : swapPairs (swapNibbles x) &&& 0xaaaaaaaaaaaaaaaa < 2 ^ 64 :=
      Nat.and_lt_two_pow _ (by norm_num)
    have h2 : (swapPairs (swapNibbles x) &&& 0xaaaaaaaaaaaaaaaa) >>> 1
        ≤ swapPairs (swapNibbles x) &&& 0xaaaaaaaaaaaaaaaa := by
      rw [Nat.shiftRight_eq_div_pow]
      exact Nat.div_le_self _ _
    exact Nat.lt_of_le_of_lt h2 h1
  · have h1 : swapPairs (swapNibbles x) &&& 0x5555555555555555 < 2 ^ 63 :=
      Nat.and_lt_two_pow _ (by norm_num)
    exact Nat.lt_of_lt_of_le (Nat.shiftLeft_lt h1) (by norm_num)

theorem fillBytes_apply (n : Nat) : ∀ (buf : Nat → Nat) (start v j : Nat),
    fillBytes buf start n v j = if start ≤ j ∧ j < start + n then v else buf j := by
  induction n with
  | zero =>
    intro buf s v j
    rw [fillBytes, if_neg (by omega)]
  | succ n ih =>
    intro buf s v j
    rw [fillBytes, ih]
    by_cases h1 : s + 1 ≤ j ∧ j < s + 1 + n
    · rw [if_pos h1, if_pos (by omega)]
    · rw [if_neg h1]
      by_cases h2 : j = s
      · subst h2
        rw [if_pos (show j ≤ j ∧ j < j + (n + 1) by omega)]
        simp
      · rw [if_neg (show ¬ (s ≤ j ∧ j < s + (n + 1)) by omega)]
        simp [h2]

theorem opcode_child_op_steps_eq (k : Nat) : ∀ op, op < 256 →
    opcode_child_op_steps k op = (op + k) % 256 := by
  induction k with
  | zero =>
    intro op h
    rw [opcode_child_op_steps, Nat.add_zero, Nat.mod_eq_of_lt h]
  | succ k ih =>
    intro op h
    rw [opcode_child_op_steps, ih ((op + 1) % 256) (Nat.mod_lt _ (by norm_num)),
      Nat.mod_add_mod]
    congr 1
    omega

theorem stress_method_lookup_none_iff {α : Type} (name : String) :
    ∀ l : List (String × α),
      stress_method_lookup name l = none ↔ ∀ m ∈ l, m.1 ≠ name := by
  intro l
  induction l with
  | nil => simp [stress_method_lookup]
  | cons m rest ih =>
    rw [stress_method_lookup]
    by_cases h : m.1 == name
    · rw [if_pos h]
      simp only [List.mem_cons]
      constructor
      · intro hc
        exact absurd hc (by simp)
      · intro hall
        exact absurd (by simpa using h) (hall m (Or.inl rfl))
    · rw [if_neg h]
      simp only [List.mem_cons, ih]
      constructor
      · intro hall m' hm'
        rcases hm' with rfl | hm'
        · simpa using h
        · exact hall m' hm'
      · intro hall m' hm'
        exact hall m' (Or.inr hm')

theorem memthrash_ceil_div (c w : Nat) (hw : 1 ≤ w) :
    (if c % w = 0 then c / w else c / w + 1) = (c + w - 1) / w := by
  by_cases h : c % w = 0
  · obtain ⟨q, rfl⟩ := Nat.dvd_of_mod_eq_zero h
    have hz : (w - 1) / w = 0 := Nat.div_eq_of_lt (by omega)
    rw [if_pos h, Nat.mul_div_cancel_left q (by omega),
      show w * q + w - 1 = w * q + (w - 1) by omega,
      Nat.mul_add_div (by omega), hz, Nat.add_zero]
  · rw [if_neg h]
    have hmod := Nat.div_add_mod c w
    have hlt : c % w < w := Nat.mod_lt _ (by omega)
    have h1 : 1 ≤ c % w := by omega
    have hz : (c % w - 1) / w = 0 := Nat.div_eq_of_lt (by omega)
    rw [show c + w - 1 = w * (c / w + 1) + (c % w - 1) by
        rw [Nat.mul_add, Nat.mul_one]; omega,
      Nat.mul_add_div (by omega), hz, Nat.add_zero]

theorem stress_memthash_optimal_loop_spec (c : Nat) : ∀ n,
    (stress_memthash_optimal_loop c n = 1 ∧ ∀ m, 2 ≤ m → m ≤ n → c % m ≠ 0) ∨
    (2 ≤ stress_memthash_optimal_loop c n ∧ stress_memthash_optimal_loop c n ≤ n ∧
      c % stress_memthash_optimal_loop c n = 0 ∧
      ∀ m, 2 ≤ m → m ≤ n → c % m = 0 → m ≤ stress_memthash_optimal_loop c n) := by
  intro n
  induction n using Nat.strong_induction_on with
  | _ n ih =>
    match n, ih with
    | 0, _ =>
      left
      exact ⟨rfl, by omega⟩
    | 1, _ =>
      left
      exact ⟨rfl, by omega⟩
    | n + 2, ih =>
      rw [stress_memthash_optimal_loop]
      by_cases h : c % (n + 2) = 0
      · rw [if_pos h]
        right
        exact ⟨by omega, Nat.le_refl _, h, fun m _ hm _ => hm⟩
      · rw [if_neg h]
        rcases ih (n + 1) (by omega) with ⟨he, hall⟩ | ⟨h2, hle, hdvd, hmax⟩
        · left
          refine ⟨he, fun m hm2 hmn => ?_⟩
          rcases Nat.lt_or_ge m (n + 2) with hlt | hge
          · exact hall m hm2 (by omega)
          · have hm : m = n + 2 := by omega
            subst hm
            exact h
        · right
          refine ⟨h2, by omega, hdvd, fun m hm2 hmn hdm => ?_⟩
          rcases Nat.lt_or_ge m (n + 2) with hlt | hge
          · exact hmax m hm2 (by omega) hdm
          · have hm : m = n + 2 := by omega
            subst hm
            exact absurd hdm h

theorem stress_memthrash_mmap_retry_cases (mmapOk keep : Nat → Bool) :
    ∀ fuel attempt reads populate r,
      stress_memthrash_mmap_retry mmapOk keep fuel attempt reads populate = some r →
      ∃ n, (∀ j, j < n → mmapOk (attempt + j) = false) ∧
        ((r = MemthrashMmapOutcome.mapped (if n = 0 then populate else false) ∧
            mmapOk (attempt + n) = true) ∨
         (r = MemthrashMmapOutcome.noResource ∧ mmapOk (attempt + n) = false ∧
            keep (reads + 2 * n) = false) ∨
         (r = MemthrashMmapOutcome.reapExit ∧ mmapOk (attempt + n) = false ∧
            keep (reads + 2 * n) = true ∧ keep (reads + 2 * n + 1) = false)) := by
  intro fuel
  induction fuel with
  | zero =>
    intro attempt reads populate r h
    simp [stress_memthrash_mmap_retry] at h
  | succ fuel ih =>
    intro attempt reads populate r h
    rw [stress_memthrash_mmap_retry] at h
    by_cases hm : mmapOk attempt = true
    · rw [if_pos hm] at h
      injection h with h
      subst h
      exact ⟨0, by omega, Or.inl ⟨by simp, by simpa using hm⟩⟩
    · rw [if_neg hm] at h
      have hm' : mmapOk attempt = false := by simpa using hm
      by_cases hk : keep reads = true
      · rw [if_neg (by simp [hk])] at h
        by_cases hk2 : keep (reads + 1) = true
        · rw [if_neg (by simp [hk2])] at h
          obtain ⟨n, hall, hcase⟩ := ih (attempt + 1) (reads + 2) false r h
          refine ⟨n + 1, ?_, ?_⟩
          · intro j hj
            cases j with
            | zero => simpa using hm'
            | succ j =>
              rw [show attempt + (j + 1) = attempt + 1 + j by omega]
              exact hall j (by omega)
          · rcases hcase with ⟨hr, hok⟩ | ⟨hr, hok, hkp⟩ | ⟨hr, hok, hkp, hkp2⟩
            · left
              refine ⟨?_, ?_⟩
              · rw [hr]
                simp
              · rw [show attempt + (n + 1) = attempt + 1 + n by omega]
                exact hok
            · right
              left
              refine ⟨hr, ?_, ?_⟩
              · rw [show attempt + (n + 1) = attempt + 1 + n by omega]
                exact hok
              · rw [show reads + 2 * (n + 1) = reads + 2 + 2 * n by omega]
                exact hkp
            · right
              right
              refine ⟨hr, ?_, ?_, ?_⟩
              · rw [show attempt + (n + 1) = attempt + 1 + n by omega]
                exact hok
              · rw [show reads + 2 * (n + 1) = reads + 2 + 2 * n by omega]
                exact hkp
              · rw [show reads + 2 * (n + 1) + 1 = reads + 2 + 2 * n + 1 by omega]
                exact hkp2
        · rw [if_pos (by simpa using hk2)] at h
          injection h with h
          subst h
          refine ⟨0, by omega, Or.inr (Or.inr ⟨rfl, by simpa using hm', ?_, ?_⟩)⟩
          · simpa using hk
          · simpa using hk2
      · rw [if_pos (by simpa using hk)] at h
        injection h with h
        subst h
        exact ⟨0, by omega, Or.inr (Or.inl ⟨rfl, by simpa using hm', by simpa using hk⟩)⟩

/-! ## Claim theorems -/

/-- Claim C1: for CPU counts `c ≥ 1`, `stress_memthrash_max w c` returns 1
when `w = 0` or `w ≥ c`, returns `ceil(c / w)` (i.e. `(c + w - 1) / w`)
otherwise, satisfies `result * w ≤ c + w` for every `w ≥ 1`, and is always at
least 1. -/
theorem stress_memthrash_max_spec (w c : Nat) (hc : 1 ≤ c) :
    ((w = 0 ∨ c ≤ w) → stress_memthrash_max w c = 1) ∧
    (1 ≤ w → w < c → stress_memthrash_max w c = (c + w - 1) / w) ∧
    (1 ≤ w → stress_memthrash_max w c * w ≤ c + w) ∧
    1 ≤ stress_memthrash_max w c := by
  refine ⟨?_, ?_, ?_, ?_⟩
  · intro h1
    unfold stress_memthrash_max
    rw [if_pos (by omega)]
  · intro hw hwc
    unfold stress_memthrash_max
    rw [if_neg (by omega)]
    exact memthrash_ceil_div c w hw
  · intro hw
    by_cases hb : w ≥ c ∨ w = 0
    · unfold stress_memthrash_max
      rw [if_pos hb]
      omega
    · unfold stress_memthrash_max
      rw [if_neg hb]
      show (if c % w = 0 then c / w else c / w + 1) * w ≤ c + w
      have hq : c / w * w ≤ c := Nat.div_mul_le_self c w
      by_cases hm : c % w = 0
      · rw [if_pos hm]
        omega
      · rw [if_neg hm, Nat.add_mul, Nat.one_mul]
        omega
  · by_cases hb : w ≥ c ∨ w = 0
    · unfold stress_memthrash_max
      rw [if_pos hb]
    · unfold stress_memthrash_max
      rw [if_neg hb]
      show 1 ≤ if c % w = 0 then c / w else c / w + 1
      have h1 : 1 ≤ c / w := (Nat.one_le_div_iff (by omega)).mpr (by omega)
      by_cases hm : c % w = 0
      · rw [if_pos hm]
        exact h1
      · rw [if_neg hm]
        omega

/-- Witness for C1 at `w = 3`, `c = 8` (worker count `ceil(8/3) = 3`). -/
theorem stress_memthrash_max_spec_witness :
    stress_memthrash_max 3 8 = (8 + 3 - 1) / 3 ∧ stress_memthrash_max 3 8 * 3 ≤ 8 + 3 :=
  ⟨(stress_memthrash_max_spec 3 8 (by decide)).2.1 (by decide) (by decide),
   (stress_memthrash_max_spec 3 8 (by decide)).2.2.1 (by decide)⟩

/-- Claim C2: the opcode parent driver increments the bogo-op counter once per
disposable child and continues, whatever the child's wait result and exit
status are (normal exit, signal death, watchdog kill, even a failed waitpid);
the returned status is `EXIT_SUCCESS` independent of every child status. -/
theorem stress_opcode_driver_spec (ws : List OpcodeWaitResult) (counter : Nat) :
    stress_opcode_driver ws counter = (counter + ws.length, ExitStatus.success) := by
  induction ws generalizing counter with
  | nil =>
    rw [stress_opcode_driver]
    simp
  | cons w rest ih =>
    rw [stress_opcode_driver, ih, List.length_cons]
    rw [show counter + 1 + rest.length = counter + (rest.length + 1) by omega]

/-- Claim C4: starting from the fresh rotation state 1, the 22 consecutive
invocations of `stress_memthrash_all` (registry size 23) invoke slots 1..22 in
table order, once each, and leave the persistent rotation index back at 1;
in particular every non-meta method is invoked exactly once per cycle. -/
theorem stress_memthrash_all_rotation :
    stress_memthrash_all_run (memthrash_methods.length - 1) 1 =
      (List.range' 1 (memthrash_methods.length - 1), 1) ∧
    ∀ j, j < memthrash_methods.length →
      (memthrash_methods.getD j memthrash_default_entry).2 ≠ MemthrashFunc.all →
      (memthrash_methods.getD j memthrash_default_entry).2 ≠ MemthrashFunc.random →
      (stress_memthrash_all_run (memthrash_methods.length - 1) 1).1.count j = 1 := by
  decide

/-- Witness for C4: slot 5 ("chunkpage", non-meta) is invoked exactly once in
a rotation cycle. -/
theorem stress_memthrash_all_rotation_witness :
    (stress_memthrash_all_run (memthrash_methods.length - 1) 1).1.count 5 = 1 :=
  stress_memthrash_all_rotation.2 5 (by decide) (by decide) (by decide)

/-- Claim C9: for `c ≥ 1`, `stress_memthash_optimal w c` is a divisor of `c`
that is 1 or at most `w`; when some `n` with `2 ≤ n ≤ w` divides `c` it is
the largest such `n`, and when none exists it is 1. -/
theorem stress_memthash_optimal_spec (w c : Nat) (hc : 1 ≤ c) :
    (stress_memthash_optimal w c ∣ c ∧
      (stress_memthash_optimal w c = 1 ∨ stress_memthash_optimal w c ≤ w)) ∧
    ((∃ n, 2 ≤ n ∧ n ≤ w ∧ n ∣ c) →
      2 ≤ stress_memthash_optimal w c ∧ stress_memthash_optimal w c ≤ w ∧
      ∀ m, 2 ≤ m → m ≤ w → m ∣ c → m ≤ stress_memthash_optimal w c) ∧
    ((¬ ∃ n, 2 ≤ n ∧ n ≤ w ∧ n ∣ c) → stress_memthash_optimal w c = 1) := by
  unfold stress_memthash_optimal
  rcases stress_memthash_optimal_loop_spec c w with ⟨he, hall⟩ | ⟨h2, hle, hdvd, hmax⟩
  · rw [he]
    refine ⟨⟨Nat.one_dvd c, Or.inl rfl⟩, ?_, fun _ => rfl⟩
    rintro ⟨n, hn2, hnw, hnd⟩
    exact absurd (Nat.mod_eq_zero_of_dvd hnd) (hall n hn2 hnw)
  · have hd : stress_memthash_optimal_loop c w ∣ c := Nat.dvd_of_mod_eq_zero hdvd
    refine ⟨⟨hd, Or.inr hle⟩, ?_, ?_⟩
    · intro _
      exact ⟨h2, hle, fun m hm2 hmw hmd => hmax m hm2 hmw (Nat.mod_eq_zero_of_dvd hmd)⟩
    · intro hne
      exact absurd ⟨_, h2, hle, hd⟩ hne

/-- Witness for C9 at `w = 6`, `c = 8` (result 4, the largest divisor of 8
not exceeding 6). -/
theorem stress_memthash_optimal_spec_witness :
    stress_memthash_optimal 6 8 ∣ 8 ∧
      (stress_memthash_optimal 6 8 = 1 ∨ stress_memthash_optimal 6 8 ≤ 6) :=
  (stress_memthash_optimal_spec 6 8 (by decide)).1

/-- Claim C10: `reverse64` is an involution on 64-bit values: reversing the
bits of every byte twice gives the value back (hence it is a bijection on
64-bit words). -/
theorem reverse64_involution (x : Nat) (h : x < 2 ^ 64) :
    reverse64 (reverse64 x) = x := by
  apply Nat.eq_of_testBit_eq
  intro i
  rcases Nat.lt_or_ge i 64 with hi | hi
  · rw [reverse64_testBit _ _ hi, reverse64_testBit _ _ (byteRevIdx_lt i hi),
      byteRevIdx_involutive i hi]
  · rw [Nat.testBit_lt_two_pow, Nat.testBit_lt_two_pow]
    · exact Nat.lt_of_lt_of_le h (Nat.pow_le_pow_right (by norm_num) hi)
    · exact Nat.lt_of_lt_of_le (reverse64_lt _) (Nat.pow_le_pow_right (by norm_num) hi)

/-- Witness for C10 at a concrete 64-bit value. -/
theorem reverse64_involution_witness :
    reverse64 (reverse64 0x0123456789abcdef) = 0x0123456789abcdef :=
  reverse64_involution 0x0123456789abcdef (by norm_num)

theorem stress_method_lookup_some {α : Type} (name : String) :
    ∀ (l : List (String × α)) m, stress_method_lookup name l = some m →
      m ∈ l ∧ m.1 = name := by
  intro l
  induction l with
  | nil =>
    intro m h
    simp [stress_method_lookup] at h
  | cons x rest ih =>
    intro m h
    rw [stress_method_lookup] at h
    by_cases hx : (x.1 == name) = true
    · rw [if_pos hx] at h
      injection h with h
      subst h
      exact ⟨List.mem_cons_self _ _, by simpa using hx⟩
    · rw [if_neg hx] at h
      obtain ⟨hm, hn⟩ := ih m h
      exact ⟨List.mem_cons_of_mem _ hm, hn⟩

/-- Counterexample to claim C3's "[1,N)" draw range: on the random byte 0 the
code draws slot 0 — outside [1,N) — and the loop then re-draws (a single-draw
stream ends with no selection). -/
theorem stress_memthrash_random_draws_slot_zero :
    stress_memthrash_random_draw 0 = 0 ∧ stress_memthrash_random_draw 0 < 1 ∧
    stress_memthrash_random_pick [0] = none := by
  decide

/-- Claim C3 (amended): the "random" meta-method draws a uniform index in
[0,N) (N = 23, the registry size), re-draws whenever the drawn slot is the
"all" or "random" slot, and any draw sequence on which the loop terminates
selects a slot that is neither "all" nor "random"; in particular slot 0 is
never selected. -/
theorem stress_memthrash_random_spec :
    (∀ b, stress_memthrash_random_draw b < memthrash_methods.length) ∧
    ∀ draws i, stress_memthrash_random_pick draws = some i →
      (memthrash_methods.getD i memthrash_default_entry).2 ≠ MemthrashFunc.all ∧
      (memthrash_methods.getD i memthrash_default_entry).2 ≠ MemthrashFunc.random ∧
      i ≠ 0 := by
  constructor
  · intro b
    exact Nat.mod_lt _ (by decide)
  · intro draws
    induction draws with
    | nil =>
      intro i h
      simp [stress_memthrash_random_pick] at h
    | cons b rest ih =>
      intro i h
      simp only [stress_memthrash_random_pick] at h
      by_cases hc : (memthrash_methods.getD (stress_memthrash_random_draw b)
            memthrash_default_entry).2 ≠ MemthrashFunc.random ∧
          (memthrash_methods.getD (stress_memthrash_random_draw b)
            memthrash_default_entry).2 ≠ MemthrashFunc.all
      · rw [if_pos hc] at h
        injection h with h
        subst h
        refine ⟨hc.2, hc.1, ?_⟩
        intro h0
        rw [h0] at hc
        exact hc.2 rfl
      · rw [if_neg hc] at h
        exact ih i h

/-- Witness for C3 at the single-draw stream `[1]`, which selects slot 1. -/
theorem stress_memthrash_random_spec_witness :
    (memthrash_methods.getD 1 memthrash_default_entry).2 ≠ MemthrashFunc.all ∧
    (memthrash_methods.getD 1 memthrash_default_entry).2 ≠ MemthrashFunc.random ∧
    (1 : Nat) ≠ 0 :=
  stress_memthrash_random_spec.2 [1] 1 (by decide)

/-- Counterexample to claim C5's "case-insensitive comparison": "ALL" matches
"all" case-insensitively, yet the lookup (strcmp) fails, returns -1 and
stores nothing. -/
theorem stress_set_memthrash_method_case_sensitive :
    (∃ m ∈ memthrash_methods, ciEq "ALL" m.1 = true) ∧
    (stress_set_memthrash_method "ALL").1 = -1 ∧
    (stress_set_memthrash_method "ALL").2.1 = none := by
  decide

/-- Claim C5 (amended): for both engines, method lookup succeeds if and only
if the name matches a registered name exactly (case-sensitively); on failure
it prints the full set of valid names and returns -1 with no setting
stored. -/
theorem stress_set_method_exact_match (name : String) :
    ((stress_set_memthrash_method name).1 = 0 ↔
      ∃ m ∈ memthrash_methods, m.1 = name) ∧
    ((stress_set_memthrash_method name).1 ≠ 0 →
      (stress_set_memthrash_method name).2.1 = none ∧
      (stress_set_memthrash_method name).2.2 = memthrash_methods.map (fun m => m.1)) ∧
    ((stress_set_opcode_method name).1 = 0 ↔
      ∃ m ∈ stress_opcode_methods, m.1 = name) ∧
    ((stress_set_opcode_method name).1 ≠ 0 →
      (stress_set_opcode_method name).2.1 = none ∧
      (stress_set_opcode_method name).2.2 = stress_opcode_methods.map (fun m => m.1)) := by
  refine ⟨?_, ?_, ?_, ?_⟩
  · cases hmatch : stress_method_lookup name memthrash_methods with
    | none =>
      simp only [stress_set_memthrash_method, hmatch]
      have hnone := (stress_method_lookup_none_iff name memthrash_methods).mp hmatch
      constructor
      · intro h0
        exact absurd h0 (by decide)
      · rintro ⟨m, hm, hname⟩
        exact absurd hname (hnone m hm)
    | some m =>
      simp only [stress_set_memthrash_method, hmatch]
      obtain ⟨hm, hname⟩ := stress_method_lookup_some name memthrash_methods m hmatch
      exact ⟨fun _ => ⟨m, hm, hname⟩, fun _ => trivial⟩
  · intro hne
    cases hmatch : stress_method_lookup name memthrash_methods with
    | none =>
      simp only [stress_set_memthrash_method, hmatch]
      exact ⟨trivial, trivial⟩
    | some m =>
      rw [stress_set_memthrash_method, hmatch] at hne
      exact absurd rfl hne
  · cases hmatch : stress_method_lookup name stress_opcode_methods with
    | none =>
      simp only [stress_set_opcode_method, hmatch]
      have hnone := (stress_method_lookup_none_iff name stress_opcode_methods).mp hmatch
      constructor
      · intro h0
        exact absurd h0 (by decide)
      · rintro ⟨m, hm, hname⟩
        exact absurd hname (hnone m hm)
    | some m =>
      simp only [stress_set_opcode_method, hmatch]
      obtain ⟨hm, hname⟩ := stress_method_lookup_some name stress_opcode_methods m hmatch
      exact ⟨fun _ => ⟨m, hm, hname⟩, fun _ => trivial⟩
  · intro hne
    cases hmatch : stress_method_lookup name stress_opcode_methods with
    | none =>
      simp only [stress_set_opcode_method, hmatch]
      exact ⟨trivial, trivial⟩
    | some m =>
      rw [stress_set_opcode_method, hmatch] at hne
      exact absurd rfl hne

/-- Witness for C5 at the unknown name "nosuch": lookup fails, nothing is
stored, the full valid set is printed. -/
theorem stress_set_method_exact_match_witness :
    (stress_set_memthrash_method "nosuch").2.1 = none ∧
    (stress_set_memthrash_method "nosuch").2.2 = memthrash_methods.map (fun m => m.1) :=
  (stress_set_method_exact_match "nosuch").2.1 (by decide)

/-- Counterexample to claim C6's "fills every byte of that writable interior":
with page size 4096 and counter value 1 the offset 8192 lies strictly inside
the region between the guard pages, yet keeps its zeroed value 0 instead of
the fill byte 1; the 8-bit "inc" generator only writes `page_size` bytes
starting at `ops_begin`. -/
theorem stress_opcode_inc8_not_whole_interior :
    opcode_ops_begin 4096 ≤ 8192 ∧ 8192 < opcode_ops_end 4096 ∧
    stress_opcode_inc8 4096 (opcode_ops_begin 4096) 1 opcode_zeroed_buf 8192 = 0 ∧
    (1 : Nat) % 256 = 1 := by
  refine ⟨by norm_num [opcode_ops_begin], by norm_num [opcode_ops_end, PAGES], ?_, by norm_num⟩
  show fillBytes opcode_zeroed_buf (opcode_ops_begin 4096) 4096 (1 % 256) 8192 = 0
  rw [fillBytes_apply]
  norm_num [opcode_ops_begin, opcode_zeroed_buf]

/-- Claim C6 (amended): the 8-bit "inc" generator fills exactly the first
`page_size` bytes of the writable interior (the page made PROT_WRITE at
`ops_begin`) with the low 8 bits of the counter, leaving the rest of the
interior zeroed; and the shared counter advances by exactly one per executed
slot in the child, so two consecutive disposable-process attempts differ by
one (mod 256) exactly when the earlier child died on its first slot. -/
theorem stress_opcode_inc8_spec (page_size op : Nat) :
    (∀ j, opcode_ops_begin page_size ≤ j →
      j < opcode_ops_begin page_size + page_size →
      stress_opcode_inc8 page_size (opcode_ops_begin page_size) op opcode_zeroed_buf j
        = op % 256) ∧
    (∀ j, opcode_ops_begin page_size + page_size ≤ j →
      stress_opcode_inc8 page_size (opcode_ops_begin page_size) op opcode_zeroed_buf j
        = 0) ∧
    (op < 256 → ∀ k, opcode_child_op_steps k op = (op + k) % 256) := by
  refine ⟨?_, ?_, fun h k => opcode_child_op_steps_eq k op h⟩
  · intro j h1 h2
    show fillBytes opcode_zeroed_buf (opcode_ops_begin page_size) page_size (op % 256) j
      = op % 256
    rw [fillBytes_apply, if_pos ⟨h1, h2⟩]
  · intro j h1
    show fillBytes opcode_zeroed_buf (opcode_ops_begin page_size) page_size (op % 256) j
      = 0
    rw [fillBytes_apply, if_neg (by omega)]
    rfl

/-- Witness for C6 at page size 4, counter 7: byte 5 of the filled page holds
`7 % 256`, and three executed slots advance the counter to `(7 + 3) % 256`. -/
theorem stress_opcode_inc8_spec_witness :
    stress_opcode_inc8 4 (opcode_ops_begin 4) 7 opcode_zeroed_buf 5 = 7 % 256 ∧
    opcode_child_op_steps 3 7 = (7 + 3) % 256 :=
  ⟨(stress_opcode_inc8_spec 4 7).1 5 (by decide) (by decide),
   (stress_opcode_inc8_spec 4 7).2.2 (by decide) 3⟩

/-- Counterexample to claim C7's "region sizes range over 1MiB..16MiB": the
last prime-stride entry has region size `4 ^ 14 = 2 ^ 28` bytes = 256 MiB,
which exceeds 16 MiB. -/
theorem stress_memthrash_find_primes_largest :
    (stress_memthrash_find_primes.getD 4 (0, 0)).1 = 268435456 ∧
    ¬ (stress_memthrash_find_primes.getD 4 (0, 0)).1 ≤ 16777216 := by
  have h : (stress_memthrash_find_primes.getD 4 (0, 0)).1 = 268435456 := rfl
  refine ⟨h, ?_⟩
  rw [h]
  norm_num

/-- Claim C7 (amended): the prime-stride table has exactly one entry per
region size `4 ^ shift` for shift in 10..14 — sizes 1 MiB .. 256 MiB — and
each entry's stride is `nextPrime(size / cacheLineSize + 137) * cacheLineSize`
with cache line size 64. -/
theorem stress_memthrash_find_primes_spec :
    stress_memthrash_find_primes.length = 5 ∧
    STRESS_CACHE_LINE_SIZE = 64 ∧
    stress_memthrash_find_primes.map (fun e => e.1) =
      [4 ^ 10, 4 ^ 11, 4 ^ 12, 4 ^ 13, 4 ^ 14] ∧
    ∀ e ∈ stress_memthrash_find_primes,
      e.2 = stress_get_prime64 (e.1 / STRESS_CACHE_LINE_SIZE + 137) *
        STRESS_CACHE_LINE_SIZE := by
  refine ⟨rfl, rfl, by decide, ?_⟩
  intro e he
  simp only [stress_memthrash_find_primes] at he
  rw [List.mem_map] at he
  obtain ⟨i, hi, rfl⟩ := he
  rfl

/-- Witness for C7 at the first table entry. -/
theorem stress_memthrash_find_primes_spec_witness :
    (stress_memthrash_find_primes.get ⟨0, by decide⟩).2 =
      stress_get_prime64 ((stress_memthrash_find_primes.get ⟨0, by decide⟩).1 /
        STRESS_CACHE_LINE_SIZE + 137) * STRESS_CACHE_LINE_SIZE :=
  stress_memthrash_find_primes_spec.2.2.2 _ (List.get_mem _ _ _)

/-- Counterexample to claim C8's "returns the resource-exhausted exit status
if and only if it gives up because the stop condition was observed": when the
stop flag is first observed at the check after the 100 ms sleep, the child
gives up without a mapping yet exits through `reap_mem` with EXIT_SUCCESS,
not EXIT_NO_RESOURCE. -/
theorem stress_memthrash_child_stop_after_sleep :
    stress_memthrash_mmap_retry (fun _ => false) (fun k => decide (k = 0)) 1 0 0 true =
      some MemthrashMmapOutcome.reapExit ∧
    memthrash_mmap_exit MemthrashMmapOutcome.reapExit = ExitStatus.success ∧
    memthrash_mmap_exit MemthrashMmapOutcome.reapExit ≠ ExitStatus.noResource := by
  decide

/-- Claim C8 (amended): on mmap failure the child drops MAP_POPULATE (every
retried attempt runs without it), sleeps 100 ms between the two stop-flag
checks, and loops until the mapping succeeds or the stop flag is observed;
it returns EXIT_NO_RESOURCE exactly when the stop flag is observed at the
check immediately after a failed mapping (before the sleep), while a stop
first observed after the sleep exits through `reap_mem` with
EXIT_SUCCESS. -/
theorem stress_memthrash_child_mmap_retry_spec (mmapOk keep : Nat → Bool)
    (fuel attempt reads : Nat) (populate : Bool) (r : MemthrashMmapOutcome)
    (h : stress_memthrash_mmap_retry mmapOk keep fuel attempt reads populate = some r) :
    (∃ n, (∀ j, j < n → mmapOk (attempt + j) = false) ∧
      ((r = MemthrashMmapOutcome.mapped (if n = 0 then populate else false) ∧
          mmapOk (attempt + n) = true) ∨
       (r = MemthrashMmapOutcome.noResource ∧ mmapOk (attempt + n) = false ∧
          keep (reads + 2 * n) = false) ∨
       (r = MemthrashMmapOutcome.reapExit ∧ mmapOk (attempt + n) = false ∧
          keep (reads + 2 * n) = true ∧ keep (reads + 2 * n + 1) = false))) ∧
    (memthrash_mmap_exit r = ExitStatus.noResource ↔
      r = MemthrashMmapOutcome.noResource) := by
  refine ⟨stress_memthrash_mmap_retry_cases mmapOk keep fuel attempt reads populate r h, ?_⟩
  cases r <;> simp [memthrash_mmap_exit]

/-- Witness for C8: a run that fails once and then maps successfully (with
MAP_POPULATE already dropped) does not report resource exhaustion. -/
theorem stress_memthrash_child_mmap_retry_spec_witness :
    memthrash_mmap_exit (MemthrashMmapOutcome.mapped false) = ExitStatus.noResource ↔
      MemthrashMmapOutcome.mapped false = MemthrashMmapOutcome.noResource :=
  (stress_memthrash_child_mmap_retry_spec (fun n => decide (n = 1)) (fun _ => true)
    3 0 0 true (MemthrashMmapOutcome.mapped false) (by decide)).2
